import Mathlib

/-!
# Verification of the `async_test` io_uring runtime core

A shallow embedding of the runtime's core data structures and operations,
translated from the Rust source:

* `src/platform/platform.rs` — `Platform` (ring broker): key minting,
  submission-queue handling, completion draining, reset.
* `src/platform/uring_fut.rs` — the I/O future state machine and its drop
  (cancellation) behaviour.
* `src/runtime.rs` — task-id minting, join-handle bookkeeping
  (`task_finished`), runtime reset.
* `src/lib.rs` — the `run` teardown sequence on root completion.
* `src/platform/mod.rs` — sockaddr encode/decode and raw-result conversion.

Machine integers (`u32`, `i32`, `u64`) are modelled as `Nat`/`Int` with
explicit `% 2^32` where wrap-around matters.  The Rust `IntMap` hash maps
are modelled as association lists with unique keys (`insertA` replaces,
`eraseA` removes every binding of the key; on unique-keyed lists this is
exactly the `IntMap` behaviour).  Kernel nondeterminism (which completions
arrive in a drain) is an explicit input.
-/

/-! ## Association-list maps (model of `nohash::IntMap`) -/

/-- Lookup in an association list (model of `IntMap::get`). -/
def lookupA {α : Type} : List (Nat × α) → Nat → Option α
  | [], _ => none
  | (k', v) :: rest, k => if k = k' then some v else lookupA rest k

/-- Remove every binding of a key (model of `IntMap::remove` on a
unique-keyed map). -/
def eraseA {α : Type} : List (Nat × α) → Nat → List (Nat × α)
  | [], _ => []
  | (k', v) :: rest, k => if k = k' then eraseA rest k else (k', v) :: eraseA rest k

/-- Insert-or-replace a binding (model of `IntMap::insert`). -/
def insertA {α : Type} (l : List (Nat × α)) (k : Nat) (v : α) : List (Nat × α) :=
  (k, v) :: eraseA l k

@[simp] theorem lookupA_nil {α : Type} (k : Nat) : lookupA ([] : List (Nat × α)) k = none := rfl

@[simp] theorem lookupA_eraseA_self {α : Type} (l : List (Nat × α)) (k : Nat) :
    lookupA (eraseA l k) k = none := by
  induction l with
  | nil => rfl
  | cons p rest ih =>
    obtain ⟨k', v⟩ := p
    by_cases h : k = k'
    · subst h
      simp [eraseA, ih]
    · simp [eraseA, lookupA, h, ih]

theorem lookupA_eraseA_ne {α : Type} (l : List (Nat × α)) (k j : Nat) (h : j ≠ k) :
    lookupA (eraseA l k) j = lookupA l j := by
  induction l with
  | nil => rfl
  | cons p rest ih =>
    obtain ⟨k', v⟩ := p
    by_cases hk : k = k'
    · subst hk
      simp [eraseA, lookupA, h, ih]
    · by_cases hj : j = k'
      · simp [eraseA, lookupA, hk, hj]
      · simp [eraseA, lookupA, hk, hj, ih]

@[simp] theorem lookupA_insertA_self {α : Type} (l : List (Nat × α)) (k : Nat) (v : α) :
    lookupA (insertA l k v) k = some v := by
  simp [insertA, lookupA]

theorem lookupA_insertA_ne {α : Type} (l : List (Nat × α)) (k j : Nat) (v : α) (h : j ≠ k) :
    lookupA (insertA l k v) j = lookupA l j := by
  simp [insertA, lookupA, h, lookupA_eraseA_ne l k j h]

theorem lookupA_eraseA_some {α : Type} (l : List (Nat × α)) (k j : Nat) (v : α)
    (h : lookupA (eraseA l k) j = some v) : lookupA l j = some v ∧ j ≠ k := by
  by_cases hj : j = k
  · subst hj; simp at h
  · exact ⟨(lookupA_eraseA_ne l k j hj) ▸ h, hj⟩

/-! ## The ring broker (`Platform`, src/platform/platform.rs)

A submission-queue entry.  In the source an `squeue::Entry` is an opaque
prepared descriptor plus a `user_data` tag; the only entry the core itself
builds is the `AsyncCancel` one, so we distinguish it from all other
prepared operations. -/

inductive Op where
  | asyncCancel (target : Nat)
  | generic (code : Nat)
deriving DecidableEq, Repr

structure Entry where
  op : Op
  userData : Nat
deriving DecidableEq, Repr

/-- A completion-queue entry: the kernel's `user_data` echo (a `u64`)
and the raw `i32` result. -/
structure Cqe where
  userData : Nat
  result : Int
deriving DecidableEq, Repr

/-- The broker state (`Platform` in src/platform/platform.rs).

`sq` is the unflushed submission queue of the current ring; `ringGen`
counts ring replacements (0 = the ring made by `Platform::new`); `pushLog`
is a ghost observation log recording, for every SQE ever pushed, the
generation of the ring it was pushed onto.  The two ghost fields change
nothing about the modelled behaviour; they only make the interaction with
the kernel observable. -/
structure Platform where
  ioKeyCounter : Nat
  submissions : List (Nat × Nat)
  completions : List (Nat × Int)
  sq : List Entry
  ringGen : Nat
  pushLog : List (Nat × Entry)
deriving DecidableEq, Repr

/-- Ring capacity: `IoUring::new(128)`. -/
def ringCap : Nat := 128

/-- Model of `Platform::new` (the field state; ring creation/probing is modelled
separately by `newIoUringM`). -/
def platformInit : Platform :=
  { ioKeyCounter := 1, submissions := [], completions := [], sq := [],
    ringGen := 0, pushLog := [] }

/-- Model of `Platform::new_io_key`: return the counter, advance it by one with
`u32` wrap-around, then skip 0. -/
def newIoKeyC (p : Platform) : Nat × Platform :=
  let key := p.ioKeyCounter
  let c1 := (key + 1) % 2 ^ 32
  let c2 := if c1 = 0 then 1 else c1
  (key, { p with ioKeyCounter := c2 })

/-- Model of `Platform::submit_sqe`: push the entry; if the queue is full, run the
counter fixup found in the source's `Err` branch, force a kernel submit
(flushing the queue), and retry — which then succeeds. -/
def submitSqe (p : Platform) (e : Entry) : Platform :=
  if p.sq.length < ringCap then
    { p with sq := p.sq ++ [e], pushLog := p.pushLog ++ [(p.ringGen, e)] }
  else
    let p1 := if p.ioKeyCounter = 0 then { p with ioKeyCounter := 1 } else p
    { p1 with sq := [e], pushLog := p1.pushLog ++ [(p1.ringGen, e)] }

/-- Variant of `submit_sqe` as it would read without the counter fixup in the
queue-full branch; used to state that the fixup is unreachable. -/
def submitSqeNoFixup (p : Platform) (e : Entry) : Platform :=
  if p.sq.length < ringCap then
    { p with sq := p.sq ++ [e], pushLog := p.pushLog ++ [(p.ringGen, e)] }
  else
    { p with sq := [e], pushLog := p.pushLog ++ [(p.ringGen, e)] }

/-- The flush performed by `submit_and_wait` / `submit`: hand the queued
entries to the kernel. -/
def flushRing (p : Platform) : Platform := { p with sq := [] }

/-- Processing of one completion entry inside `Platform::wait_for_io`:
truncate `user_data` to `u32`, and if the key is registered in
`submissions`, move the entry to `completions` and wake the mapped task. -/
def processCqe (st : Platform × List Nat) (c : Cqe) : Platform × List Nat :=
  let p := st.1
  let key := c.userData % 2 ^ 32
  match lookupA p.submissions key with
  | some taskId =>
      ({ p with submissions := eraseA p.submissions key,
                completions := insertA p.completions key c.result },
       st.2 ++ [taskId])
  | none => st

/-- Model of `Platform::wait_for_io`: submit (flush), block until the kernel
delivers `cqes` (an input, since the kernel is nondeterministic), then
drain them in order. -/
def waitForIo (p : Platform) (wakeups : List Nat) (cqes : List Cqe) :
    Platform × List Nat :=
  cqes.foldl processCqe (flushRing p, wakeups)

/-- Model of `Platform::reset`: `*self = Self::new().unwrap()` — a fresh ring and
fresh maps.  The ghost generation advances; the ghost log is history and
is kept. -/
def resetPlat (p : Platform) : Platform :=
  { platformInit with ringGen := p.ringGen + 1, pushLog := p.pushLog }

/-! ## The I/O future (`UringFut`, src/platform/uring_fut.rs) -/

/-- The I/O future state machine: `NotSubmitted → Submitted(key) → Done`. -/
inductive FutState where
  | notSubmitted
  | submitted (key : Nat)
  | done
deriving DecidableEq, Repr

/-- Model of `impl Drop for UringFut`: in `Submitted(key)`, if the key is still in
`submissions` remove it and push one `AsyncCancel` SQE targeting the key
(built without `user_data`, hence tag 0); otherwise, and in the other
states, do nothing. -/
def dropFutState (p : Platform) (f : FutState) : Platform :=
  match f with
  | .submitted key =>
      match lookupA p.submissions key with
      | some _ =>
          submitSqe { p with submissions := eraseA p.submissions key }
            ⟨Op.asyncCancel key, 0⟩
      | none => p
  | _ => p

/-- The broker mutation of `UringFut::poll` in state `NotSubmitted`
(src/platform/uring_fut.rs): mint a key, tag the prepared entry with it,
submit, and register `(key → current_task)` in `submissions`.  `tid` is
the current task, `op` the prepared operation. -/
def pollInsertOp (p : Platform) (tid : Nat) (op : Op) : Platform :=
  let kp := newIoKeyC p
  let p2 := submitSqe kp.2 ⟨op, kp.1⟩
  { p2 with submissions := insertA p2.submissions kp.1 tid }

/-! ## Runtime state (src/runtime.rs) -/

/-- A join slot (`JoinHandleInfo`): the type-erased result (`Box<dyn Any>`
modelled as an opaque `Nat` payload) and the optional waiter. -/
structure JoinInfo where
  result : Option Nat
  waitingTask : Option Nat
deriving DecidableEq, Repr

/-- The runtime state (`Runtime` in src/runtime.rs).  A task is modelled
by the list of I/O futures it owns, in the order their drops run when the
task is dropped — the only aspect of a task the teardown claims need. -/
structure RuntimeS where
  taskIdCounter : Nat
  currentTask : Nat
  tasks : List (Nat × List FutState)
  joinHandles : List (Nat × JoinInfo)
  taskWakeups : List Nat
  plat : Platform
deriving DecidableEq, Repr

/-- Model of `Runtime::new_task_id`: return the counter; then the source advances
it by `self.task_id_counter += id.wrapping_add(1)` (`u32` wrap-around),
then skips 0.  Returns `(id, new counter)`. -/
def newTaskIdC (c : Nat) : Nat × Nat :=
  let id := c
  let c1 := (c + ((id + 1) % 2 ^ 32)) % 2 ^ 32
  (id, if c1 = 0 then 1 else c1)

/-- Advancement of the task-id counter as the spec states it
(`counter = counter.wrapping_add(1)` with 0 skipped); the comparison
definition for the corrected claim. -/
def newTaskIdSpec (c : Nat) : Nat × Nat :=
  let id := c
  let c1 := (c + 1) % 2 ^ 32
  (id, if c1 = 0 then 1 else c1)

/-- Model of `Runtime::task_finished`: store the just-finished current task's
erased result into its join slot and wake the recorded waiter, if any;
if the slot is gone (join handle dropped), discard the result. -/
def taskFinished (rt : RuntimeS) (res : Nat) : RuntimeS :=
  match lookupA rt.joinHandles rt.currentTask with
  | some info =>
      { rt with
        joinHandles := insertA rt.joinHandles rt.currentTask { info with result := some res },
        taskWakeups :=
          match info.waitingTask with
          | some id => rt.taskWakeups ++ [id]
          | none => rt.taskWakeups }
  | none => rt

/-- Model of `Runtime::reset`: restore the initial counters, clear join handles and
wakeups, reset the platform (ring replacement), and transfer the task map
out to the caller (`run`), which drops it. -/
def runtimeReset (rt : RuntimeS) : RuntimeS × List (Nat × List FutState) :=
  ({ taskIdCounter := 1, currentTask := 0, tasks := [], joinHandles := [],
     taskWakeups := [0], plat := resetPlat rt.plat },
   rt.tasks)

/-- Dropping one task: its owned I/O futures are dropped in order. -/
def dropTask (p : Platform) (futs : List FutState) : Platform :=
  futs.foldl dropFutState p

/-- The teardown `run` performs when the root future completes
(src/lib.rs): `rt.reset()` runs first (replacing the ring and clearing the
maps), and the task map it returns is dropped afterwards, outside the
runtime borrow. -/
def runTeardown (rt : RuntimeS) : RuntimeS :=
  let rr := runtimeReset rt
  { rr.1 with plat := rr.2.foldl (fun p t => dropTask p t.2) rr.1.plat }

/-- Teardown in the order the spec describes it: drop every outstanding
child task first (cancellations land on the old ring), and only then
replace the ring via reset.  The comparison definition for the corrected
claim. -/
def specTeardown (rt : RuntimeS) : RuntimeS :=
  let p := rt.tasks.foldl (fun p t => dropTask p t.2) rt.plat
  (runtimeReset { rt with plat := p }).1

/-! ## Ring construction and probing (`new_io_uring`,
src/platform/platform.rs) -/

/-- The runtime's error type (src/error.rs), with the `io::Error` payloads
abstracted away. -/
inductive UringError where
  | failedInit
  | unsupportedFeature (name : String)
  | probeFailed
  | unsupportedOpcode (name : String)
  | submitFailed
  | ioError
deriving DecidableEq, Repr

/-- The opcode list probed by `new_io_uring`, with the io_uring opcode
codes (`opcode::X::CODE`, i.e. the Linux `IORING_OP_*` numbers).  This is
the exact list in the source — note that `Accept` (code 13) is absent. -/
def reqOpcodes : List (String × Nat) :=
  [("AsyncCancel", 14), ("Timeout", 11), ("Socket", 45), ("Connect", 16),
   ("RecvMsg", 10), ("SendMsg", 9), ("Shutdown", 34), ("OpenAt", 18),
   ("Read", 22), ("Write", 23), ("Close", 19)]

/-- Model of `new_io_uring`: ring creation, the `no_drop` feature check, probe
registration, and the loop over `reqOpcodes` returning
`UnsupportedOpcode` for the first unsupported one.  The kernel's answers
are inputs: `createOk`, `nodrop`, `probeOk`, and the probe's
per-opcode-code verdict `supported`. -/
def newIoUringM (createOk nodrop probeOk : Bool) (supported : Nat → Bool) :
    Except UringError Unit :=
  if !createOk then .error .failedInit
  else if !nodrop then .error (.unsupportedFeature "no_drop")
  else if !probeOk then .error .probeFailed
  else
    match reqOpcodes.find? (fun x => !supported x.2) with
    | some nc => .error (.unsupportedOpcode nc.1)
    | none => .ok ()

/-! ## Address translation and raw results (src/platform/mod.rs) -/

/-- Model of `u16::to_be` / `u16::from_be` on the (little-endian) target: swap the
two bytes.  The composition `from_be ∘ to_be` is the identity on either
endianness, which is all the round-trip uses. -/
def swap16 (x : Nat) : Nat := (x % 2 ^ 8) * 2 ^ 8 + (x / 2 ^ 8) % 2 ^ 8

/-- Model of `u32::to_be` / `u32::from_be` on the (little-endian) target: reverse
the four bytes. -/
def swap32 (x : Nat) : Nat :=
  (x % 2 ^ 8) * 2 ^ 24 + ((x / 2 ^ 8) % 2 ^ 8) * 2 ^ 16 +
    ((x / 2 ^ 16) % 2 ^ 8) * 2 ^ 8 + (x / 2 ^ 24) % 2 ^ 8

/-- An IPv4 address as `std::net::Ipv4Addr` stores it: four octets. -/
structure Ipv4 where
  a : Nat
  b : Nat
  c : Nat
  d : Nat
deriving DecidableEq, Repr

/-- Model of `u32::from(Ipv4Addr)`: big-endian interpretation of the octets. -/
def ipv4ToU32 (ip : Ipv4) : Nat := ip.a * 2 ^ 24 + ip.b * 2 ^ 16 + ip.c * 2 ^ 8 + ip.d

/-- Model of `Ipv4Addr::from(u32)`. -/
def u32ToIpv4 (x : Nat) : Ipv4 :=
  ⟨(x / 2 ^ 24) % 2 ^ 8, (x / 2 ^ 16) % 2 ^ 8, (x / 2 ^ 8) % 2 ^ 8, x % 2 ^ 8⟩

/-- A `std::net::SocketAddr`: V4 carries ip and port; V6 additionally
carries `flowinfo` and `scope_id`.  The IPv6 address is its 16 octets,
which both directions transport verbatim. -/
inductive StdSocketAddr where
  | v4 (ip : Ipv4) (port : Nat)
  | v6 (octets : List Nat) (port : Nat) (flowinfo : Nat) (scopeId : Nat)
deriving DecidableEq, Repr

/-- Model of `libc::sockaddr_in` as the encoder fills it: the stored field values
(port and address already in network byte order). -/
structure SockaddrIn where
  sin_family : Nat
  sin_port : Nat
  sin_addr : Nat
deriving DecidableEq, Repr

/-- Model of `libc::sockaddr_in6` as the encoder fills it. -/
structure SockaddrIn6 where
  sin6_family : Nat
  sin6_port : Nat
  sin6_flowinfo : Nat
  sin6_addr : List Nat
  sin6_scope_id : Nat
deriving DecidableEq, Repr

/-- The encoded buffer, viewed through the layout the decoder selects via
`sa_family` (2 = `AF_INET`, 10 = `AF_INET6` on Linux). -/
inductive LibcSockaddr where
  | v4 (a : SockaddrIn)
  | v6 (a : SockaddrIn6)
deriving DecidableEq, Repr

/-- Model of `std_addr_to_libc` (src/platform/mod.rs): write family, big-endian
port, big-endian IPv4 address / big-endian flowinfo and scope id, and the
IPv6 octets verbatim. -/
def std_addr_to_libc : StdSocketAddr → LibcSockaddr
  | .v4 ip port => .v4 ⟨2, swap16 port, swap32 (ipv4ToU32 ip)⟩
  | .v6 o port fl sc => .v6 ⟨10, swap16 port, swap32 fl, o, swap32 sc⟩

/-- Model of `libc_addr_to_std` (src/platform/mod.rs): branch on `sa_family`,
convert fields back from network byte order; an unknown family panics
(`none`). -/
def libc_addr_to_std : LibcSockaddr → Option StdSocketAddr
  | .v4 a =>
      if a.sin_family = 2 then
        some (.v4 (u32ToIpv4 (swap32 a.sin_addr)) (swap16 a.sin_port))
      else none
  | .v6 a =>
      if a.sin6_family = 10 then
        some (.v6 a.sin6_addr (swap16 a.sin6_port) (swap32 a.sin6_flowinfo)
          (swap32 a.sin6_scope_id))
      else none

/-- Validity of a socket address: the fields fit their machine widths
(IPv6 octets pass through verbatim, so they need no bound). -/
def validAddr : StdSocketAddr → Bool
  | .v4 ip port =>
      ip.a < 2 ^ 8 && ip.b < 2 ^ 8 && ip.c < 2 ^ 8 && ip.d < 2 ^ 8 && port < 2 ^ 16
  | .v6 _ port fl sc => port < 2 ^ 16 && fl < 2 ^ 32 && sc < 2 ^ 32

/-- Model of `libc_result_to_std` (src/platform/mod.rs): non-negative raw results
are success; negative ones are the negated OS error code (the payload of
`io::Error::from_raw_os_error(-res)` is modelled by that code). -/
def libc_result_to_std (res : Int) : Except Int Int :=
  if res ≥ 0 then .ok res else .error (-res)

/-! ## Helper lemmas on the broker operations -/

@[simp] theorem submitSqe_submissions (p : Platform) (e : Entry) :
    (submitSqe p e).submissions = p.submissions := by
  unfold submitSqe
  split
  · rfl
  · split <;> rfl

@[simp] theorem submitSqe_completions (p : Platform) (e : Entry) :
    (submitSqe p e).completions = p.completions := by
  unfold submitSqe
  split
  · rfl
  · split <;> rfl

@[simp] theorem submitSqe_pushLog (p : Platform) (e : Entry) :
    (submitSqe p e).pushLog = p.pushLog ++ [(p.ringGen, e)] := by
  unfold submitSqe
  split
  · rfl
  · split <;> rfl

@[simp] theorem submitSqe_ringGen (p : Platform) (e : Entry) :
    (submitSqe p e).ringGen = p.ringGen := by
  unfold submitSqe
  split
  · rfl
  · split <;> rfl

@[simp] theorem newIoKeyC_fst (p : Platform) : (newIoKeyC p).1 = p.ioKeyCounter := rfl

@[simp] theorem newIoKeyC_submissions (p : Platform) :
    ((newIoKeyC p).2).submissions = p.submissions := rfl

@[simp] theorem newIoKeyC_completions (p : Platform) :
    ((newIoKeyC p).2).completions = p.completions := rfl

@[simp] theorem flushRing_submissions (p : Platform) :
    (flushRing p).submissions = p.submissions := rfl

@[simp] theorem flushRing_completions (p : Platform) :
    (flushRing p).completions = p.completions := rfl

@[simp] theorem pollInsertOp_submissions (p : Platform) (tid : Nat) (op : Op) :
    (pollInsertOp p tid op).submissions = insertA p.submissions p.ioKeyCounter tid := by
  simp [pollInsertOp]

@[simp] theorem pollInsertOp_completions (p : Platform) (tid : Nat) (op : Op) :
    (pollInsertOp p tid op).completions = p.completions := by
  simp [pollInsertOp]

/-! ## C9 — raw-result conversion -/

/-- C9: for every signed 32-bit raw result `n`, `libc_result_to_std`
returns `Ok n` when `n ≥ 0` and an error whose OS error code is `-n`
when `n < 0`. -/
theorem c9_raw_result_conversion (n : Int) (hlo : -(2 ^ 31) ≤ n) (hhi : n < 2 ^ 31) :
    (0 ≤ n → libc_result_to_std n = .ok n) ∧
      (n < 0 → libc_result_to_std n = .error (-n)) := by
  constructor
  · intro h
    simp [libc_result_to_std, h]
  · intro h
    rw [libc_result_to_std, if_neg (by omega)]

theorem c9_raw_result_conversion_witness :
    libc_result_to_std 5 = Except.ok 5 ∧
      libc_result_to_std (-7) = Except.error (-(-7 : Int)) :=
  ⟨(c9_raw_result_conversion 5 (by decide) (by decide)).1 (by decide),
   (c9_raw_result_conversion (-7) (by decide) (by decide)).2 (by decide)⟩

/-! ## C8 — sockaddr encode/decode round-trip -/

theorem swap16_bytes (b0 b1 : Nat) (h0 : b0 < 2 ^ 8) (h1 : b1 < 2 ^ 8) :
    swap16 (b0 + b1 * 2 ^ 8) = b1 + b0 * 2 ^ 8 := by
  have e0 : (b0 + b1 * 2 ^ 8) % 2 ^ 8 = b0 := by omega
  have e1 : (b0 + b1 * 2 ^ 8) / 2 ^ 8 % 2 ^ 8 = b1 := by omega
  unfold swap16
  rw [e0, e1]
  ring

theorem swap16_swap16 (x : Nat) (h : x < 2 ^ 16) : swap16 (swap16 x) = x := by
  obtain ⟨b0, b1, hx, h0, h1⟩ :
      ∃ b0 b1, x = b0 + b1 * 2 ^ 8 ∧ b0 < 2 ^ 8 ∧ b1 < 2 ^ 8 :=
    ⟨x % 2 ^ 8, x / 2 ^ 8, by omega, by omega, by omega⟩
  subst hx
  rw [swap16_bytes b0 b1 h0 h1, swap16_bytes b1 b0 h1 h0]

theorem swap32_bytes (b0 b1 b2 b3 : Nat) (h0 : b0 < 2 ^ 8) (h1 : b1 < 2 ^ 8)
    (h2 : b2 < 2 ^ 8) (h3 : b3 < 2 ^ 8) :
    swap32 (b0 + b1 * 2 ^ 8 + b2 * 2 ^ 16 + b3 * 2 ^ 24) =
      b3 + b2 * 2 ^ 8 + b1 * 2 ^ 16 + b0 * 2 ^ 24 := by
  have e0 : (b0 + b1 * 2 ^ 8 + b2 * 2 ^ 16 + b3 * 2 ^ 24) % 2 ^ 8 = b0 := by omega
  have e1 : (b0 + b1 * 2 ^ 8 + b2 * 2 ^ 16 + b3 * 2 ^ 24) / 2 ^ 8 % 2 ^ 8 = b1 := by omega
  have e2 : (b0 + b1 * 2 ^ 8 + b2 * 2 ^ 16 + b3 * 2 ^ 24) / 2 ^ 16 % 2 ^ 8 = b2 := by omega
  have e3 : (b0 + b1 * 2 ^ 8 + b2 * 2 ^ 16 + b3 * 2 ^ 24) / 2 ^ 24 % 2 ^ 8 = b3 := by omega
  unfold swap32
  rw [e0, e1, e2, e3]
  ring

theorem swap32_swap32 (x : Nat) (h : x < 2 ^ 32) : swap32 (swap32 x) = x := by
  obtain ⟨b0, b1, b2, b3, hx, h0, h1, h2, h3⟩ :
      ∃ b0 b1 b2 b3, x = b0 + b1 * 2 ^ 8 + b2 * 2 ^ 16 + b3 * 2 ^ 24 ∧
        b0 < 2 ^ 8 ∧ b1 < 2 ^ 8 ∧ b2 < 2 ^ 8 ∧ b3 < 2 ^ 8 :=
    ⟨x % 2 ^ 8, x / 2 ^ 8 % 2 ^ 8, x / 2 ^ 16 % 2 ^ 8, x / 2 ^ 24 % 2 ^ 8,
     by omega, by omega, by omega, by omega⟩
  subst hx
  rw [swap32_bytes b0 b1 b2 b3 h0 h1 h2 h3, swap32_bytes b3 b2 b1 b0 h3 h2 h1 h0]

theorem ipv4ToU32_lt (ip : Ipv4) (ha : ip.a < 2 ^ 8) (hb : ip.b < 2 ^ 8)
    (hc : ip.c < 2 ^ 8) (hd : ip.d < 2 ^ 8) : ipv4ToU32 ip < 2 ^ 32 := by
  unfold ipv4ToU32
  omega

theorem u32ToIpv4_ipv4ToU32 (ip : Ipv4) (ha : ip.a < 2 ^ 8) (hb : ip.b < 2 ^ 8)
    (hc : ip.c < 2 ^ 8) (hd : ip.d < 2 ^ 8) : u32ToIpv4 (ipv4ToU32 ip) = ip := by
  obtain ⟨a, b, c, d⟩ := ip
  simp only [u32ToIpv4, ipv4ToU32, Ipv4.mk.injEq] at *
  refine ⟨by omega, by omega, by omega, by omega⟩

/-- C8: decoding the kernel sockaddr produced by encoding any supported
IPv4/IPv6 socket address yields the address back, preserving ip, port,
flowinfo and scope id. -/
theorem c8_addr_roundtrip (a : StdSocketAddr) (h : validAddr a = true) :
    libc_addr_to_std (std_addr_to_libc a) = some a := by
  cases a with
  | v4 ip port =>
      simp only [validAddr, Bool.and_eq_true, decide_eq_true_eq] at h
      obtain ⟨⟨⟨⟨ha, hb⟩, hc⟩, hd⟩, hp⟩ := h
      simp only [std_addr_to_libc, libc_addr_to_std]
      rw [swap32_swap32 _ (ipv4ToU32_lt ip ha hb hc hd),
        u32ToIpv4_ipv4ToU32 ip ha hb hc hd, swap16_swap16 port hp]
      simp
  | v6 o port fl sc =>
      simp only [validAddr, Bool.and_eq_true, decide_eq_true_eq] at h
      obtain ⟨⟨hp, hf⟩, hs⟩ := h
      simp only [std_addr_to_libc, libc_addr_to_std]
      rw [swap16_swap16 port hp, swap32_swap32 fl hf, swap32_swap32 sc hs]
      simp

theorem c8_addr_roundtrip_witness :
    validAddr (.v4 ⟨127, 0, 0, 1⟩ 8080) = true ∧
      libc_addr_to_std (std_addr_to_libc (.v4 ⟨127, 0, 0, 1⟩ 8080)) =
        some (.v4 ⟨127, 0, 0, 1⟩ 8080) :=
  ⟨by decide, c8_addr_roundtrip (.v4 ⟨127, 0, 0, 1⟩ 8080) (by decide)⟩

/-! ## C2 — task-id generation (code bug)

The source advances the counter by `self.task_id_counter += id.wrapping_add(1)`
(i.e. `counter := 2 * counter + 1`), not by one.  Successive ids from a
fresh runtime are 1, 3, 7, 15, … — the second spawn already gets id 3
where the spec (and the claim) demand 2.  `newTaskIdSpec` is the
advance-by-one rule the spec states. -/

/-- C2: evaluated at the failing input (the second `new_task_id` call on a
fresh runtime, counter = 1), the source returns id 3 while the claimed
advance-by-one rule returns 2; the first call does return the current
counter value. -/
theorem c2_taskid_doubling :
    (newTaskIdC 1).1 = 1 ∧
      (newTaskIdC (newTaskIdC 1).2).1 = 3 ∧
      (newTaskIdSpec (newTaskIdSpec 1).2).1 = 2 ∧
      (newTaskIdC (newTaskIdC 1).2).1 ≠ (newTaskIdSpec (newTaskIdSpec 1).2).1 := by
  decide

/-! ## C3 — required-opcode probe (code bug)

`socket_accept` (src/platform/socket.rs) submits `opcode::Accept`, but
`reqOpcodes` — the probe list in `new_io_uring` — does not contain Accept
(code 13).  A kernel reporting every opcode supported except Accept passes
the probe, so `init` succeeds instead of returning
`UnsupportedOpcode("Accept")`. -/

/-- C3: evaluated at the failing input (probe verdict: everything but
Accept supported), ring construction succeeds — `UnsupportedOpcode
("Accept")` is never produced because Accept is absent from the probed
list. -/
theorem c3_accept_not_probed :
    newIoUringM true true true (fun c => c != 13) = Except.ok () ∧
      reqOpcodes.all (fun x => x.2 != 13 && x.1 != "Accept") = true :=
  ⟨rfl, rfl⟩

/-! ## C4 — completion delivery in `wait_for_io` -/

/-- C4: for every completion entry drained by `wait_for_io` (which is the
fold of `processCqe` over the drained entries, after the flush): if the
truncated user-data key is in `submissions`, that entry is removed, the
raw result is recorded in `completions`, and exactly the mapped task id —
the submitting task — is pushed onto the ready queue; otherwise the
completion is discarded with no change at all. -/
theorem c4_completion_delivery (p : Platform) (w : List Nat) (c : Cqe) :
    (∀ tid, lookupA p.submissions (c.userData % 2 ^ 32) = some tid →
        processCqe (p, w) c =
          ({ p with submissions := eraseA p.submissions (c.userData % 2 ^ 32),
                    completions := insertA p.completions (c.userData % 2 ^ 32) c.result },
           w ++ [tid])) ∧
      (lookupA p.submissions (c.userData % 2 ^ 32) = none → processCqe (p, w) c = (p, w)) ∧
      (∀ cqes, waitForIo p w cqes = cqes.foldl processCqe (flushRing p, w)) := by
  refine ⟨?_, ?_, fun cqes => rfl⟩
  · intro tid h
    simp only [processCqe, h]
  · intro h
    simp only [processCqe, h]

theorem c4_completion_delivery_witness :
    processCqe ({ platformInit with submissions := [(3, 8)] }, [2]) ⟨3, 11⟩ =
      ({ platformInit with submissions := [], completions := [(3, 11)] }, [2, 8]) := by
  have h := (c4_completion_delivery { platformInit with submissions := [(3, 8)] } [2] ⟨3, 11⟩).1
      8 (by decide)
  rw [h]
  decide

/-! ## C6 — drop of an I/O future -/

/-- C6: dropping an I/O future in `Submitted(key)` with the key still in
`submissions` removes the key synchronously and pushes exactly one
async-cancel SQE targeting it; if the key is gone, or the future is in
`NotSubmitted` or `Done`, the drop performs no broker action. -/
theorem c6_drop_cancellation (p : Platform) (k : Nat) :
    (∀ t, lookupA p.submissions k = some t →
        dropFutState p (.submitted k) =
            submitSqe { p with submissions := eraseA p.submissions k }
              ⟨Op.asyncCancel k, 0⟩ ∧
          (dropFutState p (.submitted k)).submissions = eraseA p.submissions k ∧
          (dropFutState p (.submitted k)).pushLog =
            p.pushLog ++ [(p.ringGen, ⟨Op.asyncCancel k, 0⟩)]) ∧
      (lookupA p.submissions k = none → dropFutState p (.submitted k) = p) ∧
      dropFutState p .notSubmitted = p ∧ dropFutState p .done = p := by
  refine ⟨?_, ?_, rfl, rfl⟩
  · intro t h
    have he : dropFutState p (.submitted k) =
        submitSqe { p with submissions := eraseA p.submissions k } ⟨Op.asyncCancel k, 0⟩ := by
      simp only [dropFutState, h]
    exact ⟨he, by rw [he]; simp, by rw [he]; simp⟩
  · intro h
    simp only [dropFutState, h]

theorem c6_drop_cancellation_witness :
    dropFutState { platformInit with submissions := [(4, 2)] } (.submitted 4) =
      submitSqe { platformInit with submissions := [] } ⟨Op.asyncCancel 4, 0⟩ := by
  have h := ((c6_drop_cancellation { platformInit with submissions := [(4, 2)] } 4).1
      2 (by decide)).1
  rw [h]
  decide

/-! ## C7 — join-slot delivery in `task_finished` -/

/-- C7: when a child task finishes, `task_finished` stores the erased
result into the join slot if it still exists, pushing the recorded waiter
(if any, and only it) onto the ready queue; if the slot has been removed,
the result is discarded and nothing is woken. -/
theorem c7_task_finished (rt : RuntimeS) (res : Nat) :
    (∀ info w, lookupA rt.joinHandles rt.currentTask = some info →
        info.waitingTask = some w →
        taskFinished rt res =
          { rt with
            joinHandles := insertA rt.joinHandles rt.currentTask ⟨some res, some w⟩,
            taskWakeups := rt.taskWakeups ++ [w] }) ∧
      (∀ info, lookupA rt.joinHandles rt.currentTask = some info →
        info.waitingTask = none →
        taskFinished rt res =
          { rt with
            joinHandles := insertA rt.joinHandles rt.currentTask ⟨some res, none⟩ }) ∧
      (lookupA rt.joinHandles rt.currentTask = none → taskFinished rt res = rt) := by
  refine ⟨?_, ?_, ?_⟩
  · intro info w h hw
    obtain ⟨r, wt⟩ := info
    cases hw
    simp only [taskFinished, h]
  · intro info h hw
    obtain ⟨r, wt⟩ := info
    cases hw
    simp only [taskFinished, h]
  · intro h
    simp only [taskFinished, h]

theorem c7_task_finished_witness :
    taskFinished
        { taskIdCounter := 3, currentTask := 5, tasks := [],
          joinHandles := [(5, ⟨none, some 0⟩)], taskWakeups := [], plat := platformInit } 42 =
      { taskIdCounter := 3, currentTask := 5, tasks := [],
        joinHandles := [(5, ⟨some 42, some 0⟩)], taskWakeups := [0], plat := platformInit } := by
  have h := (c7_task_finished
      { taskIdCounter := 3, currentTask := 5, tasks := [],
        joinHandles := [(5, ⟨none, some 0⟩)], taskWakeups := [], plat := platformInit } 42).1
      ⟨none, some 0⟩ 0 (by decide) rfl
  rw [h]
  decide

/-! ## C10 — the io-key counter never hits 0 -/

theorem processCqe_ioKeyCounter (st : Platform × List Nat) (c : Cqe) :
    ((processCqe st c).1).ioKeyCounter = st.1.ioKeyCounter := by
  rcases h : lookupA st.1.submissions (c.userData % 2 ^ 32) with _ | tid <;>
    simp only [processCqe, h]

theorem foldl_processCqe_ioKeyCounter (cqes : List Cqe) :
    ∀ st : Platform × List Nat,
      ((cqes.foldl processCqe st).1).ioKeyCounter = st.1.ioKeyCounter := by
  induction cqes with
  | nil => intro st; rfl
  | cons c rest ih =>
      intro st
      rw [List.foldl_cons, ih (processCqe st c), processCqe_ioKeyCounter]

/-- C10: the io-key counter is 1 (nonzero) after construction and stays
nonzero across `new_io_key` (which therefore never returns the reserved
key 0), `submit_sqe` (whose queue-full counter fixup is then dead code:
with a nonzero counter the function coincides with the fixup-free
variant and leaves the counter untouched), `wait_for_io`, and `reset`. -/
theorem c10_key_counter_nonzero :
    platformInit.ioKeyCounter = 1 ∧
      (∀ p : Platform, p.ioKeyCounter ≠ 0 →
        (newIoKeyC p).1 ≠ 0 ∧ ((newIoKeyC p).2).ioKeyCounter ≠ 0 ∧
          ∀ e, submitSqe p e = submitSqeNoFixup p e ∧
            (submitSqe p e).ioKeyCounter = p.ioKeyCounter) ∧
      (∀ (p : Platform) (w : List Nat) (cqes : List Cqe),
        ((waitForIo p w cqes).1).ioKeyCounter = p.ioKeyCounter) ∧
      (∀ p : Platform, (resetPlat p).ioKeyCounter = 1) := by
  refine ⟨rfl, ?_, ?_, fun p => rfl⟩
  · intro p hp
    refine ⟨hp, ?_, ?_⟩
    · show (if (p.ioKeyCounter + 1) % 2 ^ 32 = 0 then 1 else (p.ioKeyCounter + 1) % 2 ^ 32) ≠ 0
      split
      · exact one_ne_zero
      · assumption
    · intro e
      unfold submitSqe submitSqeNoFixup
      rw [if_neg hp]
      constructor
      · rfl
      · split <;> rfl
  · intro p w cqes
    rw [waitForIo, foldl_processCqe_ioKeyCounter]
    rfl

theorem c10_key_counter_nonzero_witness :
    (newIoKeyC platformInit).1 ≠ 0 ∧
      submitSqe platformInit ⟨Op.generic 0, 0⟩ = submitSqeNoFixup platformInit ⟨Op.generic 0, 0⟩ :=
  ⟨(c10_key_counter_nonzero.2.1 platformInit (by decide)).1,
   ((c10_key_counter_nonzero.2.1 platformInit (by decide)).2.2 ⟨Op.generic 0, 0⟩).1⟩

/-! ## C1 — teardown ordering on root completion (corrected)

In `run` (src/lib.rs), root completion executes
`RUNTIME.with_borrow_mut(|rt| rt.reset())`; `Runtime::reset` calls
`self.plat.reset()` — replacing the ring and clearing both maps — and
only then hands the task map back to `run`, where it is dropped.  So the
ring replacement precedes the child-task drops, and each drop finds its
key absent from the (fresh) pending-submissions map and submits nothing:
the opposite of the claimed order. -/

theorem dropFutState_of_no_submissions (p : Platform) (f : FutState)
    (h : p.submissions = []) : dropFutState p f = p := by
  cases f with
  | notSubmitted => rfl
  | done => rfl
  | submitted k =>
      simp only [dropFutState, h, lookupA_nil]

theorem dropTask_of_no_submissions (futs : List FutState) (p : Platform)
    (h : p.submissions = []) : dropTask p futs = p := by
  induction futs with
  | nil => rfl
  | cons f rest ih =>
      show dropTask (dropFutState p f) rest = p
      rw [dropFutState_of_no_submissions p f h, ih]

theorem foldl_dropTask_of_no_submissions (ts : List (Nat × List FutState)) (p : Platform)
    (h : p.submissions = []) : ts.foldl (fun q t => dropTask q t.2) p = p := by
  induction ts with
  | nil => rfl
  | cons t rest ih =>
      rw [List.foldl_cons, dropTask_of_no_submissions t.2 p h, ih]

/-- The concrete input refuting C1: one outstanding child task (id 5)
holding an I/O future in `Submitted(3)` whose key 3 is still pending. -/
def rtC1 : RuntimeS :=
  { taskIdCounter := 3, currentTask := 0, tasks := [(5, [.submitted 3])],
    joinHandles := [(5, ⟨none, none⟩)], taskWakeups := [],
    plat := { ioKeyCounter := 4, submissions := [(3, 5)], completions := [],
              sq := [], ringGen := 0, pushLog := [] } }

/-- C1 counterexample: on `rtC1` the code's teardown pushes no SQE at all
— in particular no async-cancel for key 3 onto the old ring (generation
0), which is what the claim asserts and what the spec-ordered teardown
(`specTeardown`, drops before reset) would do. -/
theorem c1_teardown_counterexample :
    (runTeardown rtC1).plat.pushLog = rtC1.plat.pushLog ∧
      ((0 : Nat), (⟨Op.asyncCancel 3, 0⟩ : Entry)) ∉ (runTeardown rtC1).plat.pushLog ∧
      (specTeardown rtC1).plat.pushLog =
        rtC1.plat.pushLog ++ [(0, ⟨Op.asyncCancel 3, 0⟩)] ∧
      runTeardown rtC1 ≠ specTeardown rtC1 := by
  refine ⟨by decide, by decide, by decide, by decide⟩

/-- C1 amended: when the root future completes, every outstanding child
task is still dropped before `run` returns, but the ring replacement
performed by reset happens before those drops, not after; since reset
also clears the pending-submissions map, each drop finds its key absent
and submits no cancellation SQE — the teardown is observationally the
reset alone. -/
theorem c1_teardown_after_reset (rt : RuntimeS) :
    runTeardown rt = (runtimeReset rt).1 ∧
      (runTeardown rt).tasks = [] ∧
      (runTeardown rt).plat.pushLog = rt.plat.pushLog ∧
      (runTeardown rt).plat.ringGen = rt.plat.ringGen + 1 := by
  have he : runTeardown rt = (runtimeReset rt).1 := by
    show ({ (runtimeReset rt).1 with
        plat := (runtimeReset rt).2.foldl (fun p t => dropTask p t.2)
          (runtimeReset rt).1.plat } : RuntimeS) = (runtimeReset rt).1
    rw [foldl_dropTask_of_no_submissions (runtimeReset rt).2 (runtimeReset rt).1.plat rfl]
  refine ⟨he, by rw [he]; rfl, by rw [he]; rfl, by rw [he]; rfl⟩

/-! ## C5 — pending/completed key disjointness (corrected)

Broker operations as a step relation: key minting, the submission
insertion of an I/O future's first poll, completion draining, completion
consumption on a later poll, removal on drop, and reset.  The drain's
completion list and the inserting task are parameters, since the kernel
and scheduler choose them. -/

/-- The state change of `new_io_key` alone (the minted key discarded). -/
def mintF (p : Platform) : Platform := (newIoKeyC p).2

@[simp] theorem mintF_submissions (p : Platform) : (mintF p).submissions = p.submissions := rfl

@[simp] theorem mintF_completions (p : Platform) : (mintF p).completions = p.completions := rfl

/-- One broker operation, exactly as the source performs them. -/
inductive BStep : Platform → Platform → Prop where
  | mint (p : Platform) : BStep p (mintF p)
  | pollInsert (p : Platform) (tid : Nat) (op : Op) : BStep p (pollInsertOp p tid op)
  | drain (p : Platform) (w : List Nat) (cqes : List Cqe) : BStep p (waitForIo p w cqes).1
  | consume (p : Platform) (k : Nat) :
      BStep p { p with completions := eraseA p.completions k }
  | dropF (p : Platform) (f : FutState) : BStep p (dropFutState p f)
  | resetS (p : Platform) : BStep p (resetPlat p)

/-- States reachable by broker operations from a fresh platform. -/
def BReachable (p : Platform) : Prop := Relation.ReflTransGen BStep platformInit p

/-- The claimed invariant: no key other than the reserved 0 sits in the
pending-submissions map and the completions map at the same time. -/
def InvC5 (p : Platform) : Prop :=
  ∀ k v w, lookupA p.submissions k = some v → lookupA p.completions k = some w → k = 0

theorem reach_mint_iter (n : Nat) (p : Platform) :
    Relation.ReflTransGen BStep p (mintF^[n] p) := by
  induction n with
  | zero => exact .refl
  | succ m ih =>
      rw [Function.iterate_succ_apply']
      exact Relation.ReflTransGen.tail ih (BStep.mint _)

theorem mintF_counter_small (p : Platform) (h : p.ioKeyCounter + 1 < 2 ^ 32) :
    mintF p = { p with ioKeyCounter := p.ioKeyCounter + 1 } := by
  have hm : (p.ioKeyCounter + 1) % 2 ^ 32 = p.ioKeyCounter + 1 := Nat.mod_eq_of_lt h
  simp only [mintF, newIoKeyC]
  rw [hm, if_neg (Nat.succ_ne_zero _)]

theorem mintF_iter_counter (n : Nat) :
    ∀ p : Platform, p.ioKeyCounter + n < 2 ^ 32 →
      mintF^[n] p = { p with ioKeyCounter := p.ioKeyCounter + n } := by
  induction n with
  | zero => intro p h; rfl
  | succ m ih =>
      intro p h
      rw [Function.iterate_succ_apply, mintF_counter_small p (by omega),
        ih { p with ioKeyCounter := p.ioKeyCounter + 1 } (by simp; omega)]
      show ({ p with ioKeyCounter := p.ioKeyCounter + 1 + m } : Platform) = _
      rw [show p.ioKeyCounter + 1 + m = p.ioKeyCounter + (m + 1) by omega]

/-- The intermediate states of the violating trace and the violating
state itself. -/
def c5s1 : Platform :=
  { ioKeyCounter := 2, submissions := [(1, 7)], completions := [],
    sq := [⟨Op.generic 0, 1⟩], ringGen := 0, pushLog := [(0, ⟨Op.generic 0, 1⟩)] }

def c5s2 : Platform :=
  { ioKeyCounter := 2, submissions := [], completions := [(1, 5)],
    sq := [], ringGen := 0, pushLog := [(0, ⟨Op.generic 0, 1⟩)] }

def c5s3 : Platform :=
  { ioKeyCounter := 1, submissions := [], completions := [(1, 5)],
    sq := [], ringGen := 0, pushLog := [(0, ⟨Op.generic 0, 1⟩)] }

def badC5 : Platform :=
  { ioKeyCounter := 2, submissions := [(1, 9)], completions := [(1, 5)],
    sq := [⟨Op.generic 0, 1⟩], ringGen := 0,
    pushLog := [(0, ⟨Op.generic 0, 1⟩), (0, ⟨Op.generic 0, 1⟩)] }

/-- C5 counterexample: a state with key 1 ≠ 0 simultaneously in
pending-submissions and completions is reachable by broker operations.
The trace: task 7 submits under key 1; the completion arrives
(`wait_for_io` moves key 1 to completions); the I/O future is dropped
without consuming it, leaking the completion; 2^32 − 2 further mints wrap
the key counter back to 1; task 9's first poll then re-mints key 1 and
inserts it into pending-submissions while the leaked completion is still
present. -/
theorem c5_key_disjointness_counterexample :
    BReachable badC5 ∧ lookupA badC5.submissions 1 = some 9 ∧
      lookupA badC5.completions 1 = some 5 ∧ ¬ InvC5 badC5 := by
  refine ⟨?_, by decide, by decide, fun h => absurd (h 1 9 5 (by decide) (by decide)) one_ne_zero⟩
  have h1 : Relation.ReflTransGen BStep platformInit c5s1 :=
    Relation.ReflTransGen.single
      (show BStep platformInit c5s1 from
        (by decide : pollInsertOp platformInit 7 (Op.generic 0) = c5s1) ▸
          BStep.pollInsert platformInit 7 (Op.generic 0))
  have h2 : Relation.ReflTransGen BStep platformInit c5s2 :=
    h1.tail
      ((by decide : (waitForIo c5s1 [] [⟨1, 5⟩]).1 = c5s2) ▸ BStep.drain c5s1 [] [⟨1, 5⟩])
  have hmid : mintF^[2 ^ 32 - 3] c5s2 = { c5s2 with ioKeyCounter := 2 ^ 32 - 1 } := by
    rw [mintF_iter_counter (2 ^ 32 - 3) c5s2 (by norm_num [c5s2])]
    norm_num [c5s2]
  have h3 : Relation.ReflTransGen BStep platformInit c5s3 := by
    have hr := h2.trans (hmid ▸ reach_mint_iter (2 ^ 32 - 3) c5s2)
    exact hr.tail
      ((by norm_num [mintF, newIoKeyC, c5s2, c5s3] :
          mintF ({ c5s2 with ioKeyCounter := 2 ^ 32 - 1 }) = c5s3) ▸
        BStep.mint { c5s2 with ioKeyCounter := 2 ^ 32 - 1 })
  exact h3.tail
    ((by decide : pollInsertOp c5s3 9 (Op.generic 0) = badC5) ▸
      BStep.pollInsert c5s3 9 (Op.generic 0))

/-- Broker operations restricted by key freshness: a first-poll submission
insertion is only taken when the freshly minted key is not sitting in the
completions map (true until the 32-bit key counter wraps into a leaked
completion). -/
inductive BStepF : Platform → Platform → Prop where
  | mint (p : Platform) : BStepF p (mintF p)
  | pollInsert (p : Platform) (tid : Nat) (op : Op)
      (hfresh : lookupA p.completions p.ioKeyCounter = none) :
      BStepF p (pollInsertOp p tid op)
  | drain (p : Platform) (w : List Nat) (cqes : List Cqe) : BStepF p (waitForIo p w cqes).1
  | consume (p : Platform) (k : Nat) :
      BStepF p { p with completions := eraseA p.completions k }
  | dropF (p : Platform) (f : FutState) : BStepF p (dropFutState p f)
  | resetS (p : Platform) : BStepF p (resetPlat p)

theorem processCqe_inv (st : Platform × List Nat) (c : Cqe) (h : InvC5 st.1) :
    InvC5 (processCqe st c).1 := by
  obtain ⟨p, wl⟩ := st
  rcases hl : lookupA p.submissions (c.userData % 2 ^ 32) with _ | tid
  · have he : processCqe (p, wl) c = (p, wl) := by simp only [processCqe, hl]
    rw [he]
    exact h
  · have he : processCqe (p, wl) c =
        ({ p with submissions := eraseA p.submissions (c.userData % 2 ^ 32),
                  completions := insertA p.completions (c.userData % 2 ^ 32) c.result },
         wl ++ [tid]) := by simp only [processCqe, hl]
    rw [he]
    intro k v w hs hc
    by_cases hk : k = c.userData % 2 ^ 32
    · rw [hk] at hs
      simp at hs
    · dsimp only at hs hc
      rw [lookupA_eraseA_ne _ _ _ hk] at hs
      rw [lookupA_insertA_ne _ _ _ _ hk] at hc
      exact h k v w hs hc

theorem foldl_processCqe_inv (cqes : List Cqe) :
    ∀ st : Platform × List Nat, InvC5 st.1 → InvC5 ((cqes.foldl processCqe st).1) := by
  induction cqes with
  | nil => intro st h; exact h
  | cons c rest ih =>
      intro st h
      rw [List.foldl_cons]
      exact ih (processCqe st c) (processCqe_inv st c h)

theorem bstepF_preserves_inv (p q : Platform) (hinv : InvC5 p) (hs : BStepF p q) :
    InvC5 q := by
  cases hs with
  | mint => intro k v w h1 h2; exact hinv k v w (by simpa using h1) (by simpa using h2)
  | pollInsert tid op hfresh =>
      intro k v w h1 h2
      rw [pollInsertOp_submissions] at h1
      rw [pollInsertOp_completions] at h2
      by_cases hk : k = p.ioKeyCounter
      · rw [hk] at h2
        rw [hfresh] at h2
        cases h2
      · rw [lookupA_insertA_ne _ _ _ _ hk] at h1
        exact hinv k v w h1 h2
  | drain w cqes =>
      exact foldl_processCqe_inv cqes (flushRing p, w)
        (fun k v vw h1 h2 => hinv k v vw (by simpa using h1) (by simpa using h2))
  | consume k =>
      intro j v w h1 h2
      exact hinv j v w h1 (lookupA_eraseA_some _ _ _ _ h2).1
  | dropF f =>
      cases f with
      | notSubmitted => exact hinv
      | done => exact hinv
      | submitted key =>
          rcases hl : lookupA p.submissions key with _ | t
          · have he : dropFutState p (.submitted key) = p := by
              simp only [dropFutState, hl]
            rw [he]
            exact hinv
          · have he : dropFutState p (.submitted key) =
                submitSqe { p with submissions := eraseA p.submissions key }
                  ⟨Op.asyncCancel key, 0⟩ := by
              simp only [dropFutState, hl]
            rw [he]
            intro j v w h1 h2
            rw [submitSqe_submissions] at h1
            rw [submitSqe_completions] at h2
            exact hinv j v w (lookupA_eraseA_some _ _ _ _ h1).1 h2
  | resetS =>
      intro k v w h1 h2
      simp [resetPlat, platformInit] at h1

/-- C5 amended: the disjointness invariant holds in every state reachable
by broker operations *provided each first-poll submission insertion mints
a key not already present in the completions map* — the freshness that
fails only when the 32-bit key counter wraps around into a completion
leaked by a future dropped after its completion arrived
(see the counterexample). -/
theorem c5_key_disjointness_amended (p : Platform)
    (h : Relation.ReflTransGen BStepF platformInit p) : InvC5 p := by
  induction h with
  | refl => intro k v w h1 h2; simp [platformInit] at h1
  | tail hr hs ih => exact bstepF_preserves_inv _ _ ih hs

theorem c5_key_disjointness_amended_witness : InvC5 (mintF platformInit) :=
  c5_key_disjointness_amended (mintF platformInit)
    (Relation.ReflTransGen.single (BStepF.mint platformInit))
